import Mathlib

/-!
# cbuildd: a verification development

A shallow embedding of the utility functions of `util.go` (`GetMachineID`, `RunCmd`,
`TempFile`, `NewGUID`) and of the daemon's connection handler of `cmds/cbd.go`
(`handleRequest`), with the properties proved about them.

Conventions of the embedding:

* a Go `string` is the list of its characters (`GoString`); Go compares strings byte by byte,
  which for UTF-8 text is the lexicographic order on code points, the order of `List Char`;
* a Go `byte` / `[]byte` is a natural number below 256 / a list of them;
* a Go `error` value is a `GoError`, and the `nil` error is `none`;
* a function that can stop with a run-time panic returns a `GoResult`;
* what the operating system or the Go runtime answers (interfaces of the host, outcome of a
  child process, random numbers, the result of opening a file, the peer of a connection) is an
  explicit argument of the embedded function.
-/

namespace Cbd

/-! ## Go values -/

/-- Go strings, as lists of characters. -/
abbrev GoString := List Char

/-- What `Sys()` of an `*exec.ExitError` holds: on Unix a `syscall.WaitStatus` (a 32 bit
word), on other systems something else. -/
inductive SysValue where
  | waitStatus (w : Nat)
  | other
  deriving DecidableEq, Repr

/-- Go error values that the embedded code can see. -/
inductive GoError where
  /-- The `*exec.ExitError` that `cmd.Run` returns when the child ran and did not succeed. -/
  | exitError (sys : SysValue)
  /-- The `*os.PathError` of a failed file operation, with its `errno`. -/
  | pathError (op : GoString) (path : GoString) (errno : Nat)
  /-- The value made by `fmt.Errorf`, or any other error. -/
  | other (msg : GoString)
  deriving DecidableEq, Repr

/-- Outcome of a Go function: it returns its results, or the goroutine panics. -/
inductive GoResult (α : Type) where
  | ret (v : α)
  | panic (msg : GoString)
  deriving DecidableEq, Repr

/-! ## Machine identity (`util.go`, `GetMachineID`) -/

/-- The table `hexDigit` of package `net` (and the alphabet of `encoding/hex`). -/
def hexDigit : List Char := "0123456789abcdef".toList

/-- Two hexadecimal digits of a byte: `hexDigit[b>>4]`, `hexDigit[b&0xF]`. -/
def hexByte (b : Nat) : GoString :=
  [hexDigit.getD (b >>> 4) '0', hexDigit.getD (b &&& 0xF) '0']

/-- Go standard library `net.HardwareAddr.String`: the empty string for an empty address,
otherwise the bytes in hexadecimal separated by colons. -/
def HardwareAddr.String : List Nat → GoString
  | [] => []
  | b :: rest => hexByte b ++ rest.flatMap (fun c => ':' :: hexByte c)

/-- The fields of `net.Interface` that matter here. -/
structure Interface where
  Index : Nat
  Name : GoString
  HardwareAddr : List Nat
  deriving DecidableEq, Repr

/-- The type `MachineID`, a Go `string` that identifies a machine. -/
abbrev MachineID := GoString

/-- Go standard library `sort.Strings`: sorts into increasing order. Equal strings cannot be
told apart, so the result does not depend on the sorting algorithm. -/
def sortStrings (a : List GoString) : List GoString :=
  a.insertionSort (· ≤ ·)

/-- The loop of `GetMachineID` that collects the non-empty address strings. -/
def collectMacs (ifaces : List Interface) : List GoString :=
  ifaces.foldl
    (fun macs iface =>
      let str := HardwareAddr.String iface.HardwareAddr
      if str.length > 0 then macs ++ [str] else macs)
    []

/-- The function `GetMachineID`, given what `net.Interfaces()` returned. The results are the named results
`(m, err)` of the Go function; `macs[0]` on an empty slice is a run-time panic. -/
def GetMachineID (netInterfaces : Except GoError (List Interface)) :
    GoResult (MachineID × Option GoError) :=
  match netInterfaces with
  | .error err => .ret ([], some err)
  | .ok ifaces =>
    if ifaces.length = 0 then
      .ret ([], some (.other "No network interfaces found!".toList))
    else
      let macs := collectMacs ifaces
      let macs := sortStrings macs
      match macs with
      | [] => .panic "index out of range".toList
      | m :: _ => .ret (m, none)

/-! ## Process runner (`util.go`, `RunCmd`) -/

/-- Linux `syscall.WaitStatus.Exited`: `w&mask == 0` with `mask = 0x7F`. -/
def WaitStatus.Exited (w : Nat) : Bool := w &&& 0x7F == 0

/-- Linux `syscall.WaitStatus.ExitStatus`: `-1` unless the process exited, otherwise
`int(w>>shift) & 0xFF` with `shift = 8`. -/
def WaitStatus.ExitStatus (w : Nat) : Int :=
  if !WaitStatus.Exited w then -1 else (((w >>> 8) &&& 0xFF : Nat) : Int)

/-- The struct `ExecResult`: the output of the command and its return code. -/
structure ExecResult where
  Output : List Nat
  Return : Int
  deriving DecidableEq, Repr

/-- The two output streams of a child process. -/
inductive Stream where
  | stdout
  | stderr
  deriving DecidableEq, Repr

/-- What happened to the child process that `cmd.Run` was asked to run: it could not be
started; or it was started, wrote some chunks to its output streams, and then either waiting
for it failed or it terminated with a wait status. -/
inductive ProcOutcome where
  | startFailed (err : GoError)
  | waitFailed (writes : List (Stream × List Nat)) (err : GoError)
  | terminated (writes : List (Stream × List Nat)) (status : Nat)
  deriving DecidableEq, Repr

/-- Go standard library `exec.Cmd.Run` with `cmd.Stdout` and `cmd.Stderr` set to one and the
same buffer: the chunks written to either stream are appended to that buffer in the order
written. The result is the contents of the buffer and the error of `Run`, which is nil when
the child terminated with `ExitStatus() == 0` and an `*exec.ExitError` holding the wait
status when it terminated otherwise. -/
def cmdRun (o : ProcOutcome) : List Nat × Option GoError :=
  match o with
  | .startFailed err => ([], some err)
  | .waitFailed writes err => (writes.flatMap Prod.snd, some err)
  | .terminated writes status =>
    (writes.flatMap Prod.snd,
      if WaitStatus.ExitStatus status = 0 then none
      else some (.exitError (.waitStatus status)))

/-- The function `RunCmd`, given what the operating system does with each program and argument list. -/
def RunCmd (os : GoString → List GoString → ProcOutcome) (prog : GoString)
    (args : List GoString) : ExecResult × Option GoError :=
  let (buffer, err) := cmdRun (os prog args)
  let result : ExecResult := { Output := buffer, Return := 0 }
  match err with
  | none => (result, none)
  | some e =>
    let result := { result with Return := -1 }
    match e with
    | .exitError (.waitStatus status) =>
      ({ result with Return := WaitStatus.ExitStatus status }, some e)
    | _ => (result, some e)

/-! ## Temporary files (`util.go`, `TempFile`) -/

/-- Linux value of `os.O_RDWR`. -/
def O_RDWR : Nat := 0x2
/-- Linux value of `os.O_CREATE`. -/
def O_CREATE : Nat := 0x40
/-- Linux value of `os.O_EXCL`. -/
def O_EXCL : Nat := 0x80
/-- Linux value of `syscall.EEXIST`. -/
def EEXIST : Nat := 17

/-- Go standard library `os.IsExist`: the error reports that a file already exists. -/
def IsExist : Option GoError → Bool
  | some (.pathError _ _ errno) => errno == EEXIST
  | _ => false

/-- Digits of `big.Int.Bytes`, most significant first, with a bound on the number of steps. -/
def bigBytesAux : Nat → Nat → List Nat → List Nat
  | 0, _, acc => acc
  | fuel + 1, n, acc =>
    if n = 0 then acc else bigBytesAux fuel (n / 256) (n % 256 :: acc)

/-- Go standard library `big.Int.Bytes` of a non-negative number: its big-endian bytes with
no leading zero byte (no byte at all for zero). -/
def bigBytes (n : Nat) : List Nat := bigBytesAux n n []

/-- Go standard library `hex.EncodeToString`: two lowercase hexadecimal digits per byte. -/
def hexEncodeToString (src : List Nat) : GoString := src.flatMap hexByte

/-- The elements of a path between its separators. -/
def splitSlash : GoString → List GoString
  | [] => [[]]
  | c :: cs =>
    if c = '/' then [] :: splitSlash cs
    else
      match splitSlash cs with
      | [] => [[c]]
      | e :: es => (c :: e) :: es

/-- The elements joined again by single separators. -/
def joinSlash : List GoString → GoString
  | [] => []
  | [e] => e
  | e :: es => e ++ '/' :: joinSlash es

/-- One element of the scan of `filepath.Clean`: empty and `.` elements are dropped, a `..`
element removes the element written last, unless there is none or it is a leading `..` (then
it is kept in a relative path and dropped at the root), and any other element is written. -/
def cleanStep (rooted : Bool) (out : List GoString) (e : GoString) : List GoString :=
  if e = [] ∨ e = ['.'] then out
  else if e = ['.', '.'] then
    match out.getLast? with
    | none => if rooted then out else out ++ [e]
    | some last => if last = ['.', '.'] then out ++ [e] else out.dropLast
  else out ++ [e]

/-- Go standard library `filepath.Clean` on Unix: the shortest path equivalent to `path` by
purely lexical processing. -/
def Clean (path : GoString) : GoString :=
  if path = [] then ['.']
  else
    let rooted := path.head? == some '/'
    let out := (splitSlash path).foldl (cleanStep rooted) []
    if rooted then '/' :: joinSlash out
    else if out = [] then ['.']
    else joinSlash out

/-- Go standard library `filepath.Join` of two elements on Unix: the elements from the first
non-empty one on, joined by a separator and cleaned; the empty string if both are empty. -/
def Join (dir : GoString) (file : GoString) : GoString :=
  if dir ≠ [] then Clean (dir ++ '/' :: file)
  else if file ≠ [] then Clean file
  else []

/-- An open `*os.File`; `Name` is the name it was opened with. -/
structure File where
  Name : GoString
  deriving DecidableEq, Repr

/-- One call of `os.OpenFile`. -/
structure OpenCall where
  name : GoString
  flag : Nat
  perm : Nat
  deriving DecidableEq, Repr

/-- What the host answers to `TempFile`: the system temporary directory, the result of the
`i`-th call `rand.Int(rand.Reader, max)`, and the error (nil on success) of the `i`-th call
of `os.OpenFile`, which may depend on the state of the file system at that moment. -/
structure TempEnv where
  TempDir : GoString
  randInt : Nat → Nat → Except GoError Nat
  OpenFile : Nat → OpenCall → Option GoError

/-- The named results `(f, err)` of `TempFile`, and the calls of `os.OpenFile` it made. -/
structure TempResult where
  f : Option File
  err : Option GoError
  opens : List OpenCall
  deriving DecidableEq, Repr

/-- The value of `maxRand` after `SetString("FFFFFFFFFFFFFFFF", 16)`. -/
def maxRand : Nat := 0xFFFFFFFFFFFFFFFF

/-- The number of rounds of the loop of `TempFile`. -/
def maxAttempts : Nat := 10000

/-- The loop `for i := 0; i < 10000; i++` of `TempFile`, with `remaining = 10000 - i` rounds
to go; `f` and `err` are the named results as the previous round left them. -/
def TempFile.loop (env : TempEnv) (dir pre suffix : GoString) :
    Nat → Nat → Option File → Option GoError → List OpenCall → TempResult
  | 0, _, f, err, opens => ⟨f, err, opens⟩
  | remaining + 1, i, f, _, opens =>
    match env.randInt i maxRand with
    | .error e => ⟨f, some e, opens⟩
    | .ok randNum =>
      let randString := hexEncodeToString (bigBytes randNum)
      let name := Join dir (pre ++ randString ++ suffix)
      let call : OpenCall := ⟨name, O_RDWR ||| O_CREATE ||| O_EXCL, 0o600⟩
      match env.OpenFile i call with
      | none => ⟨some ⟨name⟩, none, opens ++ [call]⟩
      | some e =>
        if IsExist (some e) then
          TempFile.loop env dir pre suffix remaining (i + 1) none (some e) (opens ++ [call])
        else ⟨none, some e, opens ++ [call]⟩

/-- The function `TempFile(dir, prefix, suffix)` on a host `env`; `pre` stands for the
argument `prefix`. -/
def TempFile (env : TempEnv) (dir pre suffix : GoString) : TempResult :=
  let dir := if dir = [] then env.TempDir else dir
  TempFile.loop env dir pre suffix maxAttempts 0 none none []

/-! ## Globally unique ids (`util.go`, `NewGUID`) -/

/-- The call `copy(g[:], b)` into a zeroed `[16]byte`. -/
def copy16 (b : List Nat) : List Nat :=
  b.take 16 ++ List.replicate (16 - b.length) 0

/-- The function `NewGUID`, given the contents of the 16 byte slice `b` after `rand.Read(b)`. The byte
operations cannot overflow: both results are below 256. -/
def NewGUID (random : List Nat) : List Nat :=
  let b := random
  let b := b.set 6 (0x40 ||| (0x0F &&& b.getD 8 0))
  let b := b.set 8 (0xC0 ||| (0x3F &&& b.getD 6 0))
  copy16 b

/-- The standard version 4 layout of RFC 4122 applied to 16 random bytes: the version nibble
of byte 6 is set to 4 and the two variant bits of byte 8 to `10`, every other bit is kept. -/
def uuidV4 (random : List Nat) : List Nat :=
  (random.set 6 (0x40 ||| (random.getD 6 0 &&& 0x0F))).set 8
    (0x80 ||| (random.getD 8 0 &&& 0x3F))

/-! ## Daemon (`cmds/cbd.go`, `handleRequest`) -/

/-- What `handleRequest` does that can be observed: log lines, and the calls of `Decode`,
`Compile` and `Encode`; `close` stands for a call of `conn.Close`. -/
inductive Event (Job Res : Type) where
  | log (msg : GoString)
  | decode
  | compile (job : Job)
  | encode (res : Res)
  | close
  deriving DecidableEq, Repr

/-- A connection as the handler sees it. -/
structure Conn where
  closed : Bool
  deriving DecidableEq, Repr

/-- What the surroundings of one connection answer: the result of `dec.Decode(&job)`, the
results of `job.Compile()` (of package `cbd`), and the error of `enc.Encode(cresults)`. -/
structure Peer (Job Res : Type) where
  Decode : Except GoError Job
  Compile : Job → Res × Option GoError
  Encode : Res → Option GoError

/-- The handler `handleRequest(conn)`: the state of the connection when the handler returns, and the
events in the order they happened. -/
def handleRequest {Job Res : Type} (w : Peer Job Res) (conn : Conn) :
    Conn × List (Event Job Res) :=
  let trace : List (Event Job Res) := [.log "Handling request...".toList]
  let trace := trace ++ [.decode]
  match w.Decode with
  | .error _ => (conn, trace ++ [.log "Decode error:".toList])
  | .ok job =>
    let (cresults, _) := w.Compile job
    let trace := trace ++ [.compile job]
    let trace := trace ++ [.encode cresults]
    match w.Encode cresults with
    | some _ => (conn, trace ++ [.log "Encode error:".toList])
    | none => (conn, trace ++ [.log "Done.".toList])

/-- The event is a call of `job.Compile`. -/
def Event.isCompile {Job Res : Type} : Event Job Res → Bool
  | .compile _ => true
  | _ => false

/-- The event is a call of `enc.Encode`, which writes a result to the connection. -/
def Event.isEncode {Job Res : Type} : Event Job Res → Bool
  | .encode _ => true
  | _ => false

/-! ## Example hosts -/

/-- A host whose temporary directory is `/tmp`, whose random numbers are all `0x1f`, and on
which every `os.OpenFile` succeeds. -/
def hostFree : TempEnv :=
  ⟨"/tmp".toList, fun _ _ => .ok 0x1f, fun _ _ => none⟩

/-- A host on which every name that is tried exists already. -/
def hostFull : TempEnv :=
  ⟨"/tmp".toList, fun i _ => .ok i,
    fun _ c => some (.pathError "open".toList c.name EEXIST)⟩

/-- A host on which the first name that is tried exists already and the second does not. -/
def hostOneCollision : TempEnv :=
  ⟨"/tmp".toList, fun i _ => .ok (0xa0 + i),
    fun i c => if i = 0 then some (.pathError "open".toList c.name EEXIST) else none⟩

/-! ### Lemmas on `GetMachineID` -/

/-- The order on Go strings used by `sortStrings` is the lexicographic order. -/
theorem GoString_lt_iff_lex (a b : GoString) : a < b ↔ List.Lex (· < ·) a b :=
  Iff.rfl

theorem collectMacs_foldl (ifaces : List Interface) (acc : List GoString) :
    ifaces.foldl
      (fun macs iface =>
        let str := HardwareAddr.String iface.HardwareAddr
        if str.length > 0 then macs ++ [str] else macs)
      acc
    = acc ++ (ifaces.map (fun i => HardwareAddr.String i.HardwareAddr)).filter
        (fun s => decide (s.length > 0)) := by
  induction ifaces generalizing acc with
  | nil => simp
  | cons i rest ih =>
    simp only [List.foldl_cons, List.map_cons]
    rw [ih]
    by_cases h : (HardwareAddr.String i.HardwareAddr).length > 0
    · simp [h, List.filter_cons]
    · simp [h, List.filter_cons]

theorem collectMacs_eq (ifaces : List Interface) :
    collectMacs ifaces
      = (ifaces.map (fun i => HardwareAddr.String i.HardwareAddr)).filter
          (fun s => decide (s.length > 0)) := by
  unfold collectMacs
  rw [collectMacs_foldl]
  simp

theorem mem_collectMacs (ifaces : List Interface) (s : GoString) :
    s ∈ collectMacs ifaces ↔
      s ≠ [] ∧ ∃ i ∈ ifaces, HardwareAddr.String i.HardwareAddr = s := by
  rw [collectMacs_eq]
  simp only [List.mem_filter, List.mem_map, decide_eq_true_eq, List.length_pos]
  tauto

theorem sortStrings_perm (a : List GoString) : (sortStrings a).Perm a :=
  List.perm_insertionSort _ a

theorem sortStrings_sorted (a : List GoString) : (sortStrings a).Sorted (· ≤ ·) :=
  List.sorted_insertionSort _ a

theorem sortStrings_head_le (a : List GoString) (m : GoString) (rest : List GoString)
    (h : sortStrings a = m :: rest) : m ∈ a ∧ ∀ x ∈ a, m ≤ x := by
  have hp := sortStrings_perm a
  have hs := sortStrings_sorted a
  rw [h] at hp hs
  refine ⟨hp.subset (List.mem_cons_self _ _), ?_⟩
  intro x hx
  have hx' : x ∈ m :: rest := hp.symm.subset hx
  rcases List.mem_cons.mp hx' with rfl | hr
  · exact le_refl _
  · exact List.rel_of_sorted_cons hs x hr

/-! ## Theorems -/

/-- C1: for every interface list with at least one non-empty hardware-address string,
`GetMachineID` returns, with a nil error, a non-empty address string of the list that is
less than or equal to every non-empty address string of the list in lexicographic order. -/
theorem GetMachineID_smallest (ifaces : List Interface)
    (h : ∃ i ∈ ifaces, HardwareAddr.String i.HardwareAddr ≠ []) :
    ∃ m : MachineID,
      GetMachineID (.ok ifaces) = .ret (m, none) ∧
      m ≠ [] ∧
      (∃ i ∈ ifaces, HardwareAddr.String i.HardwareAddr = m) ∧
      ∀ i ∈ ifaces, HardwareAddr.String i.HardwareAddr ≠ [] →
        m ≤ HardwareAddr.String i.HardwareAddr := by
  obtain ⟨i0, hi0, hne0⟩ := h
  have hlen : ifaces.length ≠ 0 := by
    intro h0
    rw [List.length_eq_zero] at h0
    simp [h0] at hi0
  have hmem0 : HardwareAddr.String i0.HardwareAddr ∈ collectMacs ifaces :=
    (mem_collectMacs _ _).mpr ⟨hne0, i0, hi0, rfl⟩
  have hmemS : HardwareAddr.String i0.HardwareAddr ∈ sortStrings (collectMacs ifaces) :=
    (sortStrings_perm _).symm.subset hmem0
  cases hs : sortStrings (collectMacs ifaces) with
  | nil => rw [hs] at hmemS; simp at hmemS
  | cons m rest =>
    obtain ⟨hm, hle⟩ := sortStrings_head_le _ m rest hs
    obtain ⟨hmne, hmex⟩ := (mem_collectMacs _ _).mp hm
    refine ⟨m, ?_, hmne, hmex, ?_⟩
    · simp only [GetMachineID, hlen, if_false, hs]
    · intro i hi hne
      exact hle _ ((mem_collectMacs _ _).mpr ⟨hne, i, hi, rfl⟩)

/-- Witness of C1: a host with a loopback interface (no address) and two network cards. -/
theorem GetMachineID_smallest_witness :
    ∃ m : MachineID,
      GetMachineID (.ok [⟨1, "lo".toList, []⟩,
                         ⟨2, "eth0".toList, [0x52, 0x54, 0x00, 0xab, 0xcd, 0xef]⟩,
                         ⟨3, "wlan0".toList, [0x00, 0x1a, 0x2b, 0x3c, 0x4d, 0x5e]⟩])
        = .ret (m, none) ∧
      m ≠ [] ∧
      (∃ i ∈ [(⟨1, "lo".toList, []⟩ : Interface),
              ⟨2, "eth0".toList, [0x52, 0x54, 0x00, 0xab, 0xcd, 0xef]⟩,
              ⟨3, "wlan0".toList, [0x00, 0x1a, 0x2b, 0x3c, 0x4d, 0x5e]⟩],
          HardwareAddr.String i.HardwareAddr = m) ∧
      ∀ i ∈ [(⟨1, "lo".toList, []⟩ : Interface),
              ⟨2, "eth0".toList, [0x52, 0x54, 0x00, 0xab, 0xcd, 0xef]⟩,
              ⟨3, "wlan0".toList, [0x00, 0x1a, 0x2b, 0x3c, 0x4d, 0x5e]⟩],
        HardwareAddr.String i.HardwareAddr ≠ [] →
          m ≤ HardwareAddr.String i.HardwareAddr :=
  GetMachineID_smallest _ ⟨⟨2, "eth0".toList, [0x52, 0x54, 0x00, 0xab, 0xcd, 0xef]⟩,
    by decide, by decide⟩

/-- C2 (the code at the failing input): for an empty interface list `GetMachineID` returns
the error `No network interfaces found!`; but on a host whose only interface is the loopback
interface, which has no hardware address, it does not return an error: the address list is
empty after filtering and `macs[0]` panics. -/
theorem GetMachineID_loopback_only_panics :
    GetMachineID (.ok []) = .ret ([], some (.other "No network interfaces found!".toList)) ∧
    GetMachineID (.ok [⟨1, "lo".toList, []⟩]) = .panic "index out of range".toList ∧
    (∀ i ∈ [(⟨1, "lo".toList, []⟩ : Interface)], HardwareAddr.String i.HardwareAddr = []) ∧
    ∀ r, GetMachineID (.ok [⟨1, "lo".toList, []⟩]) ≠ .ret r := by
  have hp : GetMachineID (.ok [⟨1, "lo".toList, []⟩]) = .panic "index out of range".toList := by
    decide
  refine ⟨by decide, hp, by decide, ?_⟩
  intro r hr
  rw [hp] at hr
  cases hr

/-! ### `RunCmd` -/

set_option maxRecDepth 100000 in
theorem ExitStatus_of_exit_code : ∀ N < 256, WaitStatus.ExitStatus (N <<< 8) = (N : Int) := by
  decide

/-- C3 (counterexample): a program that was launched and exited with status 2 (as `go bob`
in the test of `RunCmd`) makes `RunCmd` return the status 2 together with a non-nil error. -/
theorem RunCmd_exit_2_returns_error :
    (RunCmd (fun _ _ => .terminated [(.stderr, [103, 111, 58, 10])] (2 <<< 8))
        "go".toList ["bob".toList]).1.Return = 2 ∧
    (RunCmd (fun _ _ => .terminated [(.stderr, [103, 111, 58, 10])] (2 <<< 8))
        "go".toList ["bob".toList]).2 ≠ none := by
  decide

/-- C3 (amended): `RunCmd` returns the error of `cmd.Run` unchanged. Its error is nil exactly
when the program was launched and terminated with exit status 0; when the program was
launched and terminated with any other status, that status is returned in `Return` together
with the non-nil `*exec.ExitError` holding it; when the program could not be launched or
the wait failed, that error is returned. -/
theorem RunCmd_error (os : GoString → List GoString → ProcOutcome) (prog : GoString)
    (args : List GoString) :
    ((RunCmd os prog args).2 = none ↔
      ∃ writes status, os prog args = .terminated writes status ∧
        WaitStatus.ExitStatus status = 0) ∧
    (∀ writes status, os prog args = .terminated writes status →
      WaitStatus.ExitStatus status ≠ 0 →
        (RunCmd os prog args).1.Return = WaitStatus.ExitStatus status ∧
        (RunCmd os prog args).2 = some (.exitError (.waitStatus status))) ∧
    (∀ err, os prog args = .startFailed err → (RunCmd os prog args).2 = some err) ∧
    (∀ writes err, os prog args = .waitFailed writes err →
      (RunCmd os prog args).2 = some err) := by
  refine ⟨?_, ?_, ?_, ?_⟩
  · cases h : os prog args with
    | startFailed err =>
      simp only [RunCmd, h, cmdRun]
      constructor
      · intro h2; split at h2 <;> simp at h2
      · rintro ⟨w, s, h3, _⟩; cases h3
    | waitFailed writes err =>
      simp only [RunCmd, h, cmdRun]
      constructor
      · intro h2; split at h2 <;> simp at h2
      · rintro ⟨w, s, h3, _⟩; cases h3
    | terminated writes status =>
      by_cases hz : WaitStatus.ExitStatus status = 0
      · simp only [RunCmd, h, cmdRun, hz, if_true]
        exact ⟨fun _ => ⟨writes, status, rfl, hz⟩, fun _ => trivial⟩
      · simp only [RunCmd, h, cmdRun, hz, if_false]
        constructor
        · intro h2; simp at h2
        · rintro ⟨w, s, h3, h4⟩
          cases h3
          exact absurd h4 hz
  · intro writes status h hz
    simp only [RunCmd, h, cmdRun, hz, if_false]
    exact ⟨trivial, trivial⟩
  · intro err h
    simp only [RunCmd, h, cmdRun]
    split <;> rfl
  · intro writes err h
    simp only [RunCmd, h, cmdRun]
    split <;> rfl

/-- Witness of C3 (amended): a program that exits with status 2. -/
theorem RunCmd_error_witness :
    (RunCmd (fun _ _ => .terminated [] 512) "go".toList ["bob".toList]).1.Return
        = WaitStatus.ExitStatus 512 ∧
    (RunCmd (fun _ _ => .terminated [] 512) "go".toList ["bob".toList]).2
        = some (.exitError (.waitStatus 512)) :=
  (RunCmd_error (fun _ _ => .terminated [] 512) "go".toList ["bob".toList]).2.1
    [] 512 rfl (by decide)

/-- C4: the `Output` of the result of `RunCmd` is the contents of the one buffer that both
output streams were captured into; and when the program exits with code `N`, for every `N`
from 0 to 255 (wait status `N << 8`), the `Return` of the result is `N`. -/
theorem RunCmd_return_and_output (os : GoString → List GoString → ProcOutcome)
    (prog : GoString) (args : List GoString) :
    (RunCmd os prog args).1.Output = (cmdRun (os prog args)).1 ∧
    ∀ (writes : List (Stream × List Nat)) (N : Nat), N ≤ 255 →
      os prog args = .terminated writes (N <<< 8) →
        (RunCmd os prog args).1.Return = (N : Int) ∧
        (RunCmd os prog args).1.Output = writes.flatMap Prod.snd := by
  constructor
  · simp only [RunCmd]
    cases h : (cmdRun (os prog args)) with
    | mk buffer err =>
      cases err with
      | none => rfl
      | some e =>
        simp only
        split <;> rfl
  · intro writes N hN h
    have hs := ExitStatus_of_exit_code N (by omega)
    by_cases hz : N = 0
    · subst hz
      have hz0 : WaitStatus.ExitStatus (0 <<< 8) = 0 := by decide
      simp only [RunCmd, h, cmdRun, hz0, if_true]
      exact ⟨rfl, trivial⟩
    · have hne : WaitStatus.ExitStatus (N <<< 8) ≠ 0 := by
        rw [hs]; exact_mod_cast hz
      simp only [RunCmd, h, cmdRun, hne, if_false]
      exact ⟨hs, trivial⟩

/-- Witness of C4: `go bob` writes a line to each stream and exits with code 2. -/
theorem RunCmd_return_and_output_witness :
    (RunCmd (fun _ _ => .terminated [(.stdout, [104, 105]), (.stderr, [33, 10])] (2 <<< 8))
        "go".toList ["bob".toList]).1.Return = ((2 : Nat) : Int) ∧
    (RunCmd (fun _ _ => .terminated [(.stdout, [104, 105]), (.stderr, [33, 10])] (2 <<< 8))
        "go".toList ["bob".toList]).1.Output
      = [(Stream.stdout, [104, 105]), (Stream.stderr, [33, 10])].flatMap Prod.snd :=
  (RunCmd_return_and_output
    (fun _ _ => .terminated [(.stdout, [104, 105]), (.stderr, [33, 10])] (2 <<< 8))
    "go".toList ["bob".toList]).2 _ 2 (by decide) rfl

/-! ### `NewGUID` -/

theorem guid_byte6 (x : Nat) : 0x40 ||| (0x0F &&& x) = 0x40 + x % 16 := by
  have h : 0x0F &&& x = x % 16 := by
    rw [Nat.land_comm]
    exact Nat.and_pow_two_sub_one_eq_mod x 4
  rw [h]
  have hlt : x % 16 < 16 := Nat.mod_lt _ (by decide)
  generalize x % 16 = y at hlt
  revert y
  decide

theorem guid_byte8 (x : Nat) : 0xC0 ||| (0x3F &&& (0x40 ||| (0x0F &&& x))) = 0xC0 + x % 16 := by
  rw [guid_byte6]
  have hlt : x % 16 < 16 := Nat.mod_lt _ (by decide)
  generalize x % 16 = y at hlt
  revert y
  decide

theorem land_0F (x : Nat) : x &&& 0x0F = x % 16 :=
  Nat.and_pow_two_sub_one_eq_mod x 4

theorem NewGUID_eq (r : List Nat) (h : r.length = 16) :
    NewGUID r = (r.set 6 (0x40 + r.getD 8 0 % 16)).set 8 (0xC0 + r.getD 8 0 % 16) := by
  have h6 : (r.set 6 (0x40 ||| (0x0F &&& r.getD 8 0))).getD 6 0
      = 0x40 ||| (0x0F &&& r.getD 8 0) := by
    simp [List.getD_eq_getElem?_getD, List.getElem?_set, h]
  simp only [NewGUID, copy16]
  rw [h6, guid_byte8, guid_byte6]
  simp [h, List.take_of_length_le]

theorem getD_set_set (r : List Nat) (a b : Nat) (i : Nat) (h : r.length = 16) :
    ((r.set 6 a).set 8 b).getD i 0
      = if i = 8 then b else if i = 6 then a else r.getD i 0 := by
  simp only [List.getD_eq_getElem?_getD, List.getElem?_set, List.length_set, h]
  by_cases h8 : i = 8
  · subst h8; simp
  · by_cases h6 : i = 6
    · subst h6; simp
    · have h8' : ¬ 8 = i := fun e => h8 e.symm
      have h6' : ¬ 6 = i := fun e => h6 e.symm
      simp [h8, h6, h8', h6']

theorem list_of_length_16 (r : List Nat) (h : r.length = 16) :
    ∃ a0 a1 a2 a3 a4 a5 a6 a7 a8 a9 a10 a11 a12 a13 a14 a15,
      r = [a0, a1, a2, a3, a4, a5, a6, a7, a8, a9, a10, a11, a12, a13, a14, a15] := by
  rcases r with _ | ⟨a0, _ | ⟨a1, _ | ⟨a2, _ | ⟨a3, _ | ⟨a4, _ | ⟨a5, _ | ⟨a6, _ | ⟨a7, _ |
    ⟨a8, _ | ⟨a9, _ | ⟨a10, _ | ⟨a11, _ | ⟨a12, _ | ⟨a13, _ | ⟨a14, _ | ⟨a15, _ | ⟨a16,
    r⟩⟩⟩⟩⟩⟩⟩⟩⟩⟩⟩⟩⟩⟩⟩⟩⟩
  all_goals try (simp only [List.length_cons, List.length_nil] at h; omega)
  exact ⟨a0, a1, a2, a3, a4, a5, a6, a7, a8, a9, a10, a11, a12, a13, a14, a15, rfl⟩

theorem NewGUID_card :
    Set.ncard {g | ∃ r : List Nat, r.length = 16 ∧ (∀ b ∈ r, b < 256) ∧ NewGUID r = g}
      ≤ 2 ^ 116 := by
  let build : (Fin 256 × Fin 256 × Fin 256 × Fin 256 × Fin 256 × Fin 256 × Fin 256 ×
      Fin 256 × Fin 256 × Fin 256 × Fin 256 × Fin 256 × Fin 256 × Fin 256 × Fin 16)
      → List Nat :=
    fun y => NewGUID [y.1.val, y.2.1.val, y.2.2.1.val, y.2.2.2.1.val, y.2.2.2.2.1.val,
      y.2.2.2.2.2.1.val, 0, y.2.2.2.2.2.2.1.val, y.2.2.2.2.2.2.2.2.2.2.2.2.2.2.val,
      y.2.2.2.2.2.2.2.1.val, y.2.2.2.2.2.2.2.2.1.val, y.2.2.2.2.2.2.2.2.2.1.val,
      y.2.2.2.2.2.2.2.2.2.2.1.val, y.2.2.2.2.2.2.2.2.2.2.2.1.val,
      y.2.2.2.2.2.2.2.2.2.2.2.2.1.val, y.2.2.2.2.2.2.2.2.2.2.2.2.2.1.val]
  have hsub : {g | ∃ r : List Nat, r.length = 16 ∧ (∀ b ∈ r, b < 256) ∧ NewGUID r = g}
      ⊆ Set.range build := by
    rintro g ⟨r, hlen, hb, rfl⟩
    obtain ⟨a0, a1, a2, a3, a4, a5, a6, a7, a8, a9, a10, a11, a12, a13, a14, a15, rfl⟩ :=
      list_of_length_16 r hlen
    simp only [List.mem_cons, List.mem_nil_iff, or_false, forall_eq_or_imp, forall_eq] at hb
    obtain ⟨h0, h1, h2, h3, h4, h5, _, h7, _, h9, h10, h11, h12, h13, h14, h15⟩ := hb
    refine ⟨(⟨a0, h0⟩, ⟨a1, h1⟩, ⟨a2, h2⟩, ⟨a3, h3⟩, ⟨a4, h4⟩, ⟨a5, h5⟩, ⟨a7, h7⟩,
      ⟨a9, h9⟩, ⟨a10, h10⟩, ⟨a11, h11⟩, ⟨a12, h12⟩, ⟨a13, h13⟩, ⟨a14, h14⟩, ⟨a15, h15⟩,
      ⟨a8 % 16, Nat.mod_lt _ (by decide)⟩), ?_⟩
    simp [build, NewGUID_eq, List.set]
  calc Set.ncard {g | ∃ r : List Nat, r.length = 16 ∧ (∀ b ∈ r, b < 256) ∧ NewGUID r = g}
      ≤ Set.ncard (Set.range build) := Set.ncard_le_ncard hsub (Set.finite_range build)
    _ = Set.ncard (build '' Set.univ) := by rw [Set.image_univ]
    _ ≤ Set.ncard (Set.univ : Set (Fin 256 × Fin 256 × Fin 256 × Fin 256 × Fin 256 ×
          Fin 256 × Fin 256 × Fin 256 × Fin 256 × Fin 256 × Fin 256 × Fin 256 × Fin 256 ×
          Fin 256 × Fin 16)) := Set.ncard_image_le Set.finite_univ
    _ = 2 ^ 116 := by
      rw [Set.ncard_univ, Nat.card_eq_fintype_card]
      simp only [Fintype.card_prod, Fintype.card_fin]
      norm_num

/-- C10: for every 16 random bytes `r`, the GUID `g` built by `NewGUID` has
`g[6] = 0x40 | (r[8] & 0x0F)`, `g[8] = 0xC0 | (r[8] & 0x0F)` and `g[i] = r[i]` at every other
index; so the low nibbles of bytes 6 and 8 are equal, byte 6 is in `0x40..0x4F`, byte 8 in
`0xC0..0xCF`, and random bytes that differ only in byte 6 or in the high nibble of byte 8
give the same GUID; the GUIDs that 16 random bytes can give are at most `2 ^ 116`. -/
theorem NewGUID_layout (r : List Nat) (h : r.length = 16) :
    (NewGUID r).length = 16 ∧
    (NewGUID r).getD 6 0 = 0x40 ||| (r.getD 8 0 &&& 0x0F) ∧
    (NewGUID r).getD 8 0 = 0xC0 ||| (r.getD 8 0 &&& 0x0F) ∧
    (∀ i, i < 16 → i ≠ 6 → i ≠ 8 → (NewGUID r).getD i 0 = r.getD i 0) ∧
    (NewGUID r).getD 6 0 % 16 = (NewGUID r).getD 8 0 % 16 ∧
    (0x40 ≤ (NewGUID r).getD 6 0 ∧ (NewGUID r).getD 6 0 ≤ 0x4F) ∧
    (0xC0 ≤ (NewGUID r).getD 8 0 ∧ (NewGUID r).getD 8 0 ≤ 0xCF) ∧
    (∀ r2 : List Nat, r2.length = 16 →
      (∀ i, i < 16 → i ≠ 6 → i ≠ 8 → r2.getD i 0 = r.getD i 0) →
      r2.getD 8 0 % 16 = r.getD 8 0 % 16 →
        NewGUID r2 = NewGUID r) ∧
    Set.ncard {g | ∃ r0 : List Nat, r0.length = 16 ∧ (∀ b ∈ r0, b < 256) ∧ NewGUID r0 = g}
      ≤ 2 ^ 116 := by
  have hlt : r.getD 8 0 % 16 < 16 := Nat.mod_lt _ (by decide)
  have e6 : 0x40 ||| (r.getD 8 0 &&& 0x0F) = 0x40 + r.getD 8 0 % 16 := by
    rw [Nat.land_comm]; exact guid_byte6 _
  have e8 : 0xC0 ||| (r.getD 8 0 &&& 0x0F) = 0xC0 + r.getD 8 0 % 16 := by
    rw [land_0F]
    generalize r.getD 8 0 % 16 = y at hlt
    revert y
    decide
  have g6 : (NewGUID r).getD 6 0 = 0x40 + r.getD 8 0 % 16 := by
    rw [NewGUID_eq r h, getD_set_set _ _ _ _ h]; simp
  have g8 : (NewGUID r).getD 8 0 = 0xC0 + r.getD 8 0 % 16 := by
    rw [NewGUID_eq r h, getD_set_set _ _ _ _ h]; simp
  refine ⟨?_, ?_, ?_, ?_, ?_, ?_, ?_, ?_, NewGUID_card⟩
  · rw [NewGUID_eq r h]; simp [h]
  · rw [g6, e6]
  · rw [g8, e8]
  · intro i _ hi6 hi8
    rw [NewGUID_eq r h, getD_set_set _ _ _ _ h]
    simp [hi6, hi8]
  · rw [g6, g8]; omega
  · rw [g6]; omega
  · rw [g8]; omega
  · intro r2 h2 hsame hnib
    rw [NewGUID_eq r h, NewGUID_eq r2 h2, hnib]
    apply List.ext_getElem?
    intro i
    have key := hsame i
    by_cases hi : i < 16
    · by_cases h8 : i = 8
      · subst h8; simp [List.getElem?_set, h, h2]
      · by_cases h6 : i = 6
        · subst h6; simp [List.getElem?_set, h, h2]
        · have h8' : ¬ 8 = i := fun e => h8 e.symm
          have h6' : ¬ 6 = i := fun e => h6 e.symm
          have := key hi h6 h8
          simp only [List.getD_eq_getElem?_getD] at this
          have hi2 : i < r2.length := by omega
          have hi1 : i < r.length := by omega
          simp only [List.getElem?_set, h8', h6', if_false]
          rw [List.getElem?_eq_getElem hi2, List.getElem?_eq_getElem hi1] at this ⊢
          simpa using this
    · have hi2 : r2.length ≤ i := by omega
      have hi1 : r.length ≤ i := by omega
      rw [List.getElem?_eq_none (by simpa using hi2), List.getElem?_eq_none (by simpa using hi1)]

/-- Witness of C10: two runs whose random bytes differ in byte 6 and in the high nibble of
byte 8 only. -/
theorem NewGUID_layout_witness :
    NewGUID [0, 1, 2, 3, 4, 5, 0xFF, 7, 0xA8, 9, 10, 11, 12, 13, 14, 15]
      = NewGUID [0, 1, 2, 3, 4, 5, 6, 7, 8, 9, 10, 11, 12, 13, 14, 15] :=
  (NewGUID_layout [0, 1, 2, 3, 4, 5, 6, 7, 8, 9, 10, 11, 12, 13, 14, 15] rfl).2.2.2.2.2.2.2.1
    [0, 1, 2, 3, 4, 5, 0xFF, 7, 0xA8, 9, 10, 11, 12, 13, 14, 15] rfl
    (by decide) (by decide)

/-- C7 (the code at a failing input): for the random bytes that are all zero except
`r[6] = 0x0F`, `NewGUID` gives `g[6] = 0x40` and `g[8] = 0xC0`, where the version 4 layout of
the claim has `g[6] = 0x40 | (r[6] & 0x0F) = 0x4F` and `g[8] = 0x80 | (r[8] & 0x3F) = 0x80`. -/
theorem NewGUID_not_version4_layout :
    NewGUID [0, 0, 0, 0, 0, 0, 0x0F, 0, 0, 0, 0, 0, 0, 0, 0, 0]
      = [0, 0, 0, 0, 0, 0, 0x40, 0, 0xC0, 0, 0, 0, 0, 0, 0, 0] ∧
    uuidV4 [0, 0, 0, 0, 0, 0, 0x0F, 0, 0, 0, 0, 0, 0, 0, 0, 0]
      = [0, 0, 0, 0, 0, 0, 0x4F, 0, 0x80, 0, 0, 0, 0, 0, 0, 0] ∧
    (NewGUID [0, 0, 0, 0, 0, 0, 0x0F, 0, 0, 0, 0, 0, 0, 0, 0, 0]).getD 6 0
      ≠ 0x40 ||| (([0, 0, 0, 0, 0, 0, 0x0F, 0, 0, 0, 0, 0, 0, 0, 0, 0] : List Nat).getD 6 0
          &&& 0x0F) ∧
    (NewGUID [0, 0, 0, 0, 0, 0, 0x0F, 0, 0, 0, 0, 0, 0, 0, 0, 0]).getD 8 0
      ≠ 0x80 ||| (([0, 0, 0, 0, 0, 0, 0x0F, 0, 0, 0, 0, 0, 0, 0, 0, 0] : List Nat).getD 8 0
          &&& 0x3F) := by
  decide

/-! ### `handleRequest` -/

/-- C8: `handleRequest` calls `Encode` if and only if decoding the job succeeded. When
decoding fails there is no `Compile` and no `Encode` event; after a successful decode there
is exactly one `Compile` event and exactly one `Encode` event, whatever error `Compile`
reported, and the events `Decode`, `Compile job`, `Encode` of the result of that compile
happen in this order. -/
theorem handleRequest_decode_compile_encode {Job Res : Type} (w : Peer Job Res)
    (conn : Conn) :
    ((∃ res, Event.encode res ∈ (handleRequest w conn).2) ↔ ∃ job, w.Decode = .ok job) ∧
    (∀ e, w.Decode = .error e →
      (handleRequest w conn).2.countP Event.isCompile = 0 ∧
      (handleRequest w conn).2.countP Event.isEncode = 0 ∧
      (handleRequest w conn).2
        = [.log "Handling request...".toList, .decode, .log "Decode error:".toList]) ∧
    (∀ job, w.Decode = .ok job →
      (handleRequest w conn).2.countP Event.isCompile = 1 ∧
      (handleRequest w conn).2.countP Event.isEncode = 1 ∧
      ∃ msg, (handleRequest w conn).2
        = [.log "Handling request...".toList, .decode, .compile job,
            .encode (w.Compile job).1, .log msg]) := by
  refine ⟨?_, ?_, ?_⟩
  · cases h : w.Decode with
    | error e => simp [handleRequest, h]
    | ok job =>
      cases h2 : w.Encode (w.Compile job).1 <;> simp [handleRequest, h, h2]
  · intro e h
    simp [handleRequest, h, Event.isCompile, Event.isEncode, List.countP_cons]
  · intro job h
    cases h2 : w.Encode (w.Compile job).1 <;>
      simp [handleRequest, h, h2, Event.isCompile, Event.isEncode, List.countP_cons]

/-- Witness of C8: a job that decodes, and whose compile reports an error. -/
theorem handleRequest_decode_compile_encode_witness :
    List.countP Event.isCompile
        (handleRequest (⟨.ok 7, fun j => (j + 1, some (.other [])), fun _ => none⟩ :
          Peer Nat Nat) ⟨false⟩).2 = 1 ∧
    List.countP Event.isEncode
        (handleRequest (⟨.ok 7, fun j => (j + 1, some (.other [])), fun _ => none⟩ :
          Peer Nat Nat) ⟨false⟩).2 = 1 ∧
    ∃ msg, (handleRequest (⟨.ok 7, fun j => (j + 1, some (.other [])), fun _ => none⟩ :
          Peer Nat Nat) ⟨false⟩).2
        = [.log "Handling request...".toList, .decode, .compile 7, .encode 8, .log msg] :=
  (handleRequest_decode_compile_encode
    (⟨.ok 7, fun j => (j + 1, some (.other [])), fun _ => none⟩ : Peer Nat Nat) ⟨false⟩).2.2
    7 rfl

/-- C9 (counterexample): after a normal exchange (the job decodes, compiles, and the result
is encoded) the handler returns with the connection still open, and no call of `Close` is
among its events. -/
theorem handleRequest_leaves_connection_open :
    (handleRequest (⟨.ok 7, fun j => (j + 1, none), fun _ => none⟩ : Peer Nat Nat)
        ⟨false⟩).1.closed = false ∧
    Event.close ∉ (handleRequest (⟨.ok 7, fun j => (j + 1, none), fun _ => none⟩ :
        Peer Nat Nat) ⟨false⟩).2 := by
  decide

/-- C9 (amended): on every exit path (decode error, encode error, normal completion)
`handleRequest` returns without closing the connection: the state of the connection is the
one it was given and no call of `Close` is among its events. -/
theorem handleRequest_never_closes {Job Res : Type} (w : Peer Job Res) (conn : Conn) :
    (handleRequest w conn).1 = conn ∧ Event.close ∉ (handleRequest w conn).2 := by
  cases h : w.Decode with
  | error e => simp [handleRequest, h]
  | ok job =>
    cases h2 : w.Encode (w.Compile job).1 <;> simp [handleRequest, h, h2]


/-! ### `TempFile` -/

theorem hexDigit_getD_mem (n : Nat) : hexDigit.getD n '0' ∈ hexDigit := by
  by_cases h : n < 16
  · interval_cases n <;> decide
  · rw [List.getD_eq_default _ _ (by simpa [hexDigit] using h)]
    decide

theorem hexEncodeToString_mem (src : List Nat) :
    ∀ c ∈ hexEncodeToString src, c ∈ hexDigit := by
  intro c hc
  simp only [hexEncodeToString, List.mem_flatMap, hexByte, List.mem_cons,
    List.mem_nil_iff, or_false] at hc
  obtain ⟨b, _, hb⟩ := hc
  rcases hb with rfl | rfl <;> exact hexDigit_getD_mem _

theorem TempFile.loop_zero (env : TempEnv) (dir pre suffix : GoString) (i : Nat)
    (f : Option File) (err : Option GoError) (opens : List OpenCall) :
    TempFile.loop env dir pre suffix 0 i f err opens = ⟨f, err, opens⟩ := by
  simp [TempFile.loop]

theorem TempFile.loop_opens (env : TempEnv) (dir pre suffix : GoString) :
    ∀ (remaining i : Nat) (f : Option File) (err : Option GoError) (opens : List OpenCall),
      TempFile.loop env dir pre suffix remaining i f err opens
        = ⟨(TempFile.loop env dir pre suffix remaining i f err []).f,
           (TempFile.loop env dir pre suffix remaining i f err []).err,
           opens ++ (TempFile.loop env dir pre suffix remaining i f err []).opens⟩ := by
  intro remaining
  induction remaining with
  | zero => intro i f err opens; simp [TempFile.loop]
  | succ n ih =>
    intro i f err opens
    simp only [TempFile.loop]
    cases hr : env.randInt i maxRand with
    | error e => simp
    | ok v =>
      simp only
      cases ho : env.OpenFile i
          ⟨Join dir (pre ++ hexEncodeToString (bigBytes v) ++ suffix),
            O_RDWR ||| O_CREATE ||| O_EXCL, 0o600⟩ with
      | none => simp
      | some e =>
        simp only
        by_cases hx : IsExist (some e) = true
        · simp only [hx, if_true]
          rw [ih (i + 1) none (some e) (opens ++ _), ih (i + 1) none (some e) ([] ++ _)]
          simp
        · simp [hx]

theorem TempFile.loop_succ (env : TempEnv) (dir pre suffix : GoString)
    (remaining i : Nat) (f : Option File) (err : Option GoError) :
    TempFile.loop env dir pre suffix (remaining + 1) i f err []
      = match env.randInt i maxRand with
        | .error e => ⟨f, some e, []⟩
        | .ok v =>
          match env.OpenFile i ⟨Join dir (pre ++ hexEncodeToString (bigBytes v) ++ suffix),
              O_RDWR ||| O_CREATE ||| O_EXCL, 0o600⟩ with
          | none =>
            ⟨some ⟨Join dir (pre ++ hexEncodeToString (bigBytes v) ++ suffix)⟩, none,
              [⟨Join dir (pre ++ hexEncodeToString (bigBytes v) ++ suffix),
                O_RDWR ||| O_CREATE ||| O_EXCL, 0o600⟩]⟩
          | some e =>
            if IsExist (some e) then
              ⟨(TempFile.loop env dir pre suffix remaining (i + 1) none (some e) []).f,
                (TempFile.loop env dir pre suffix remaining (i + 1) none (some e) []).err,
                ⟨Join dir (pre ++ hexEncodeToString (bigBytes v) ++ suffix),
                  O_RDWR ||| O_CREATE ||| O_EXCL, 0o600⟩ ::
                (TempFile.loop env dir pre suffix remaining (i + 1) none (some e) []).opens⟩
            else
              ⟨none, some e,
                [⟨Join dir (pre ++ hexEncodeToString (bigBytes v) ++ suffix),
                  O_RDWR ||| O_CREATE ||| O_EXCL, 0o600⟩]⟩ := by
  conv_lhs => unfold TempFile.loop
  cases hr : env.randInt i maxRand with
  | error e => rfl
  | ok v =>
    simp only
    cases ho : env.OpenFile i
        ⟨Join dir (pre ++ hexEncodeToString (bigBytes v) ++ suffix),
          O_RDWR ||| O_CREATE ||| O_EXCL, 0o600⟩ with
    | none => simp
    | some e =>
      simp only
      by_cases hx : IsExist (some e) = true
      · simp only [hx, if_true]
        rw [TempFile.loop_opens]
        simp
      · simp [hx]

theorem TempFile.loop_length (env : TempEnv) (dir pre suffix : GoString) :
    ∀ (remaining i : Nat) (f : Option File) (err : Option GoError),
      (TempFile.loop env dir pre suffix remaining i f err []).opens.length ≤ remaining := by
  intro remaining
  induction remaining with
  | zero => intro i f err; simp [TempFile.loop_zero]
  | succ n ih =>
    intro i f err
    rw [TempFile.loop_succ]
    cases hr : env.randInt i maxRand with
    | error e => simp
    | ok v =>
      simp only
      cases ho : env.OpenFile i
          ⟨Join dir (pre ++ hexEncodeToString (bigBytes v) ++ suffix),
            O_RDWR ||| O_CREATE ||| O_EXCL, 0o600⟩ with
      | none => simp
      | some e =>
        simp only
        by_cases hx : IsExist (some e) = true
        · simp only [hx, if_true, List.length_cons]
          have := ih (i + 1) none (some e)
          omega
        · simp [hx]

theorem TempFile.loop_calls (env : TempEnv) (dir pre suffix : GoString) :
    ∀ (remaining i : Nat) (f : Option File) (err : Option GoError) (k : Nat) (c : OpenCall),
      (TempFile.loop env dir pre suffix remaining i f err []).opens[k]? = some c →
        ∃ v, env.randInt (i + k) maxRand = .ok v ∧
          c = ⟨Join dir (pre ++ hexEncodeToString (bigBytes v) ++ suffix),
                O_RDWR ||| O_CREATE ||| O_EXCL, 0o600⟩ := by
  intro remaining
  induction remaining with
  | zero => intro i f err k c; simp [TempFile.loop_zero]
  | succ n ih =>
    intro i f err k c
    rw [TempFile.loop_succ]
    cases hr : env.randInt i maxRand with
    | error e => simp
    | ok v =>
      simp only
      cases ho : env.OpenFile i
          ⟨Join dir (pre ++ hexEncodeToString (bigBytes v) ++ suffix),
            O_RDWR ||| O_CREATE ||| O_EXCL, 0o600⟩ with
      | none =>
        simp only
        intro hk
        cases k with
        | zero =>
          simp only [List.getElem?_cons_zero, Option.some.injEq] at hk
          exact ⟨v, hr, hk.symm⟩
        | succ k => simp at hk
      | some e =>
        simp only
        by_cases hx : IsExist (some e) = true
        · simp only [hx, if_true]
          intro hk
          cases k with
          | zero =>
            simp only [List.getElem?_cons_zero, Option.some.injEq] at hk
            exact ⟨v, hr, hk.symm⟩
          | succ k =>
            simp only [List.getElem?_cons_succ] at hk
            have := ih (i + 1) none (some e) k c hk
            rwa [show i + 1 + k = i + (k + 1) by omega] at this
        · simp only [hx]
          intro hk
          cases k with
          | zero =>
            simp only [Bool.false_eq_true, if_false, List.getElem?_cons_zero,
              Option.some.injEq] at hk
            exact ⟨v, hr, hk.symm⟩
          | succ k => simp at hk

theorem TempFile.loop_retry (env : TempEnv) (dir pre suffix : GoString) :
    ∀ (remaining i : Nat) (f : Option File) (err : Option GoError) (k : Nat) (c : OpenCall),
      (TempFile.loop env dir pre suffix remaining i f err []).opens[k]? = some c →
      k + 1 < (TempFile.loop env dir pre suffix remaining i f err []).opens.length →
        IsExist (env.OpenFile (i + k) c) = true := by
  intro remaining
  induction remaining with
  | zero => intro i f err k c; simp [TempFile.loop_zero]
  | succ n ih =>
    intro i f err k c
    rw [TempFile.loop_succ]
    cases hr : env.randInt i maxRand with
    | error e => simp
    | ok v =>
      simp only
      cases ho : env.OpenFile i
          ⟨Join dir (pre ++ hexEncodeToString (bigBytes v) ++ suffix),
            O_RDWR ||| O_CREATE ||| O_EXCL, 0o600⟩ with
      | none =>
        simp only [List.length_singleton]
        intro _ hlt
        omega
      | some e =>
        simp only
        by_cases hx : IsExist (some e) = true
        · simp only [hx, if_true, List.length_cons]
          intro hk hlt
          cases k with
          | zero =>
            simp only [List.getElem?_cons_zero, Option.some.injEq] at hk
            subst hk
            simp only [Nat.add_zero]
            rw [ho]
            exact hx
          | succ k =>
            simp only [List.getElem?_cons_succ] at hk
            have := ih (i + 1) none (some e) k c hk (by omega)
            rwa [show i + 1 + k = i + (k + 1) by omega] at this
        · simp only [hx, Bool.false_eq_true, if_false, List.length_singleton]
          intro _ hlt
          omega

theorem TempFile.loop_stop (env : TempEnv) (dir pre suffix : GoString) :
    ∀ (remaining i : Nat) (f : Option File) (err : Option GoError) (k : Nat) (c : OpenCall),
      (TempFile.loop env dir pre suffix remaining i f err []).opens[k]? = some c →
      IsExist (env.OpenFile (i + k) c) = false →
        k + 1 = (TempFile.loop env dir pre suffix remaining i f err []).opens.length ∧
        (TempFile.loop env dir pre suffix remaining i f err []).err = env.OpenFile (i + k) c ∧
        (TempFile.loop env dir pre suffix remaining i f err []).f
          = if env.OpenFile (i + k) c = none then some ⟨c.name⟩ else none := by
  intro remaining
  induction remaining with
  | zero => intro i f err k c; simp [TempFile.loop_zero]
  | succ n ih =>
    intro i f err k c
    rw [TempFile.loop_succ]
    cases hr : env.randInt i maxRand with
    | error e => simp
    | ok v =>
      simp only
      cases ho : env.OpenFile i
          ⟨Join dir (pre ++ hexEncodeToString (bigBytes v) ++ suffix),
            O_RDWR ||| O_CREATE ||| O_EXCL, 0o600⟩ with
      | none =>
        simp only [List.length_singleton]
        intro hk _
        cases k with
        | zero =>
          simp only [List.getElem?_cons_zero, Option.some.injEq] at hk
          subst hk
          simp only [Nat.add_zero]
          rw [ho]
          simp
        | succ k => simp at hk
      | some e =>
        simp only
        by_cases hx : IsExist (some e) = true
        · simp only [hx, if_true, List.length_cons]
          intro hk hne
          cases k with
          | zero =>
            simp only [List.getElem?_cons_zero, Option.some.injEq] at hk
            subst hk
            simp only [Nat.add_zero] at hne
            rw [ho, hx] at hne
            cases hne
          | succ k =>
            simp only [List.getElem?_cons_succ] at hk
            rw [show i + (k + 1) = i + 1 + k by omega] at hne ⊢
            have := ih (i + 1) none (some e) k c hk hne
            exact ⟨by omega, this.2.1, this.2.2⟩
        · simp only [hx, Bool.false_eq_true, if_false, List.length_singleton]
          intro hk _
          cases k with
          | zero =>
            simp only [List.getElem?_cons_zero, Option.some.injEq] at hk
            subst hk
            simp only [Nat.add_zero]
            rw [ho]
            simp
          | succ k => simp at hk

theorem TempFile.loop_exhaust (env : TempEnv) (dir pre suffix : GoString) :
    ∀ (remaining i : Nat) (f : Option File) (err : Option GoError), 0 < remaining →
      (∀ k, k < remaining → ∃ v, env.randInt (i + k) maxRand = .ok v ∧
        IsExist (env.OpenFile (i + k)
          ⟨Join dir (pre ++ hexEncodeToString (bigBytes v) ++ suffix),
            O_RDWR ||| O_CREATE ||| O_EXCL, 0o600⟩) = true) →
      (TempFile.loop env dir pre suffix remaining i f err []).f = none ∧
      IsExist (TempFile.loop env dir pre suffix remaining i f err []).err = true ∧
      (TempFile.loop env dir pre suffix remaining i f err []).opens.length = remaining := by
  intro remaining
  induction remaining with
  | zero => intro i f err h; omega
  | succ n ih =>
    intro i f err _ hall
    obtain ⟨v, hr, hx⟩ := hall 0 (by omega)
    simp only [Nat.add_zero] at hr hx
    rw [TempFile.loop_succ]
    simp only [hr]
    cases ho : env.OpenFile i
        ⟨Join dir (pre ++ hexEncodeToString (bigBytes v) ++ suffix),
          O_RDWR ||| O_CREATE ||| O_EXCL, 0o600⟩ with
    | none =>
      rw [ho] at hx
      simp [IsExist] at hx
    | some e =>
      rw [ho] at hx
      simp only [hx, if_true, List.length_cons]
      rcases Nat.eq_zero_or_pos n with hn | hn
      · subst hn
        simp only [TempFile.loop_zero, List.length_nil]
        exact ⟨trivial, hx, trivial⟩
      · have hall2 : ∀ k, k < n → ∃ v, env.randInt (i + 1 + k) maxRand = .ok v ∧
            IsExist (env.OpenFile (i + 1 + k)
              ⟨Join dir (pre ++ hexEncodeToString (bigBytes v) ++ suffix),
                O_RDWR ||| O_CREATE ||| O_EXCL, 0o600⟩) = true := by
          intro k hk
          have := hall (k + 1) (by omega)
          rwa [show i + (k + 1) = i + 1 + k by omega] at this
        obtain ⟨h1, h2, h3⟩ := ih (i + 1) none (some e) hn hall2
        exact ⟨h1, h2, by omega⟩

theorem TempFile.loop_not_nil_nil (env : TempEnv) (dir pre suffix : GoString) :
    ∀ (remaining i : Nat) (f : Option File) (err : Option GoError),
      (err ≠ none ∨ 0 < remaining) →
      ¬ ((TempFile.loop env dir pre suffix remaining i f err []).f = none ∧
         (TempFile.loop env dir pre suffix remaining i f err []).err = none) := by
  intro remaining
  induction remaining with
  | zero =>
    intro i f err h
    rcases h with h | h
    · simp [TempFile.loop_zero, h]
    · omega
  | succ n ih =>
    intro i f err _
    rw [TempFile.loop_succ]
    cases hr : env.randInt i maxRand with
    | error e => simp
    | ok v =>
      simp only
      cases ho : env.OpenFile i
          ⟨Join dir (pre ++ hexEncodeToString (bigBytes v) ++ suffix),
            O_RDWR ||| O_CREATE ||| O_EXCL, 0o600⟩ with
      | none => simp
      | some e =>
        simp only
        by_cases hx : IsExist (some e) = true
        · simp only [hx, if_true]
          exact ih (i + 1) none (some e) (Or.inl (by simp))
        · simp [hx]

theorem TempFile.loop_created (env : TempEnv) (dir pre suffix : GoString) :
    ∀ (remaining i : Nat) (err : Option GoError) (file : File),
      (TempFile.loop env dir pre suffix remaining i none err []).f = some file →
      ∃ k v, env.randInt (i + k) maxRand = .ok v ∧
        file.Name = Join dir (pre ++ hexEncodeToString (bigBytes v) ++ suffix) ∧
        env.OpenFile (i + k) ⟨file.Name, O_RDWR ||| O_CREATE ||| O_EXCL, 0o600⟩ = none := by
  intro remaining
  induction remaining with
  | zero => intro i err file; simp [TempFile.loop_zero]
  | succ n ih =>
    intro i err file
    rw [TempFile.loop_succ]
    cases hr : env.randInt i maxRand with
    | error e => simp
    | ok v =>
      simp only
      cases ho : env.OpenFile i
          ⟨Join dir (pre ++ hexEncodeToString (bigBytes v) ++ suffix),
            O_RDWR ||| O_CREATE ||| O_EXCL, 0o600⟩ with
      | none =>
        simp only [Option.some.injEq]
        intro hf
        subst hf
        exact ⟨0, v, hr, rfl, ho⟩
      | some e =>
        simp only
        by_cases hx : IsExist (some e) = true
        · simp only [hx, if_true]
          intro hf
          obtain ⟨k, v2, h1, h2, h3⟩ := ih (i + 1) (some e) file hf
          refine ⟨k + 1, v2, ?_, h2, ?_⟩
          · rwa [show i + (k + 1) = i + 1 + k by omega]
          · rwa [show i + (k + 1) = i + 1 + k by omega]
        · simp [hx]

/-! ### `filepath.Join` -/

theorem splitSlash_ne_nil (p : GoString) : splitSlash p ≠ [] := by
  cases p with
  | nil => simp [splitSlash]
  | cons c cs =>
    simp only [splitSlash]
    split
    · simp
    · split <;> simp

theorem splitSlash_cons (c : Char) (cs : GoString) :
    splitSlash (c :: cs)
      = if c = '/' then [] :: splitSlash cs
        else
          match splitSlash cs with
          | [] => [[c]]
          | e :: es => (c :: e) :: es := by
  rw [splitSlash]

theorem splitSlash_append_slash (a b : GoString) :
    splitSlash (a ++ '/' :: b) = splitSlash a ++ splitSlash b := by
  induction a with
  | nil => simp [splitSlash]
  | cons c cs ih =>
    rw [List.cons_append, splitSlash_cons, splitSlash_cons, ih]
    by_cases hc : c = '/'
    · simp [hc]
    · simp only [hc, if_false]
      cases hs : splitSlash cs with
      | nil => exact absurd hs (splitSlash_ne_nil cs)
      | cons e es => rfl

theorem splitSlash_of_not_mem (e : GoString) (h : '/' ∉ e) : splitSlash e = [e] := by
  induction e with
  | nil => simp [splitSlash]
  | cons c cs ih =>
    simp only [List.mem_cons, not_or] at h
    have hc : c ≠ '/' := fun hc => h.1 hc.symm
    simp [splitSlash, hc, ih h.2]

theorem joinSlash_cons_cons (x y : GoString) (ys : List GoString) :
    joinSlash (x :: y :: ys) = x ++ '/' :: joinSlash (y :: ys) := rfl

theorem joinSlash_append_last (out : List GoString) (e t : GoString) :
    joinSlash (out ++ [e ++ t]) = joinSlash (out ++ [e]) ++ t := by
  induction out with
  | nil => simp [joinSlash]
  | cons x xs ih =>
    cases xs with
    | nil => simp [joinSlash]
    | cons y ys =>
      simp only [List.cons_append] at ih ⊢
      rw [joinSlash_cons_cons, joinSlash_cons_cons, ih]
      simp

theorem cleanStep_plain (rooted : Bool) (out : List GoString) (e : GoString)
    (h1 : e ≠ []) (h2 : e ≠ ['.']) (h3 : e ≠ ['.', '.']) :
    cleanStep rooted out e = out ++ [e] := by
  simp [cleanStep, h1, h2, h3]

theorem Clean_append_plain (d e : GoString) (hd : d ≠ []) (hs : '/' ∉ e)
    (h1 : e ≠ []) (h2 : e ≠ ['.']) (h3 : e ≠ ['.', '.']) :
    Clean (d ++ '/' :: e)
      = (if d.head? == some '/' then ['/'] else [])
          ++ joinSlash ((splitSlash d).foldl (cleanStep (d.head? == some '/')) [] ++ [e]) := by
  have hne : d ++ '/' :: e ≠ [] := by simp
  have hhead : (d ++ '/' :: e).head? = d.head? := by
    cases d with
    | nil => exact absurd rfl hd
    | cons c cs => rfl
  simp only [Clean, hne, if_false, hhead, splitSlash_append_slash,
    splitSlash_of_not_mem e hs, List.foldl_append, List.foldl_cons, List.foldl_nil,
    cleanStep_plain _ _ e h1 h2 h3]
  by_cases hr : (d.head? == some '/') = true
  · simp [hr]
  · simp [hr]

theorem Clean_plain (e : GoString) (hs : '/' ∉ e)
    (h1 : e ≠ []) (h2 : e ≠ ['.']) (h3 : e ≠ ['.', '.']) : Clean e = e := by
  have hhead : (e.head? == some '/') = false := by
    cases e with
    | nil => exact absurd rfl h1
    | cons c cs =>
      simp only [List.mem_cons, not_or] at hs
      have hc : c ≠ '/' := fun hc => hs.1 hc.symm
      simp [hc]
  simp [Clean, h1, hhead, splitSlash_of_not_mem e hs, cleanStep_plain _ _ e h1 h2 h3,
    joinSlash]

theorem plain_append (e t : GoString) (hs : '/' ∉ e) (ht : '/' ∉ t)
    (h1 : e ≠ []) (h2 : e ≠ ['.']) (h3 : e ≠ ['.', '.']) :
    '/' ∉ e ++ t ∧ e ++ t ≠ [] ∧ e ++ t ≠ ['.'] ∧ e ++ t ≠ ['.', '.'] := by
  refine ⟨by simp [hs, ht], by simp [h1], ?_, ?_⟩
  · intro h
    cases e with
    | nil => exact h1 rfl
    | cons c cs =>
      cases cs with
      | nil =>
        simp only [List.cons_append, List.nil_append, List.cons.injEq] at h
        exact h2 (by rw [h.1])
      | cons c2 cs2 => simp at h
  · intro h
    cases e with
    | nil => exact h1 rfl
    | cons c cs =>
      cases cs with
      | nil =>
        simp only [List.cons_append, List.nil_append, List.cons.injEq] at h
        exact h2 (by rw [h.1])
      | cons c2 cs2 =>
        cases cs2 with
        | nil =>
          simp only [List.cons_append, List.nil_append, List.cons.injEq] at h
          exact h3 (by rw [h.1, h.2.1])
        | cons c3 cs3 => simp at h

theorem Join_plain (d e t : GoString) (hs : '/' ∉ e) (ht : '/' ∉ t)
    (h1 : e ≠ []) (h2 : e ≠ ['.']) (h3 : e ≠ ['.', '.']) :
    Join d (e ++ t) = Join d e ++ t := by
  obtain ⟨gs, g1, g2, g3⟩ := plain_append e t hs ht h1 h2 h3
  by_cases hd : d = []
  · subst hd
    simp only [Join, ne_eq, not_true_eq_false, if_false, g1, h1, not_false_eq_true, if_true]
    rw [Clean_plain _ gs g1 g2 g3, Clean_plain _ hs h1 h2 h3]
  · simp only [Join, ne_eq, hd, not_false_eq_true, if_true]
    rw [Clean_append_plain d _ hd gs g1 g2 g3, Clean_append_plain d _ hd hs h1 h2 h3,
      joinSlash_append_last, List.append_assoc]

/-- The model of `filepath.Clean` on the table of the tests of the Go standard library. -/
theorem Clean_examples :
    Clean "".toList = ".".toList ∧
    Clean "abc".toList = "abc".toList ∧
    Clean "abc/def".toList = "abc/def".toList ∧
    Clean ".".toList = ".".toList ∧
    Clean "..".toList = "..".toList ∧
    Clean "../../abc".toList = "../../abc".toList ∧
    Clean "/abc".toList = "/abc".toList ∧
    Clean "/".toList = "/".toList ∧
    Clean "abc/".toList = "abc".toList ∧
    Clean "./".toList = ".".toList ∧
    Clean "../../".toList = "../..".toList ∧
    Clean "abc//def//ghi".toList = "abc/def/ghi".toList ∧
    Clean "//abc//".toList = "/abc".toList ∧
    Clean "/./abc/def".toList = "/abc/def".toList ∧
    Clean "abc/.".toList = "abc".toList ∧
    Clean "abc/def/../ghi/../jkl".toList = "abc/jkl".toList ∧
    Clean "abc/def/../..".toList = ".".toList ∧
    Clean "/abc/def/../..".toList = "/".toList ∧
    Clean "abc/def/../../..".toList = "..".toList ∧
    Clean "/abc/def/../../..".toList = "/".toList ∧
    Clean "abc/def/../../../ghi/jkl/../../../mno".toList = "../../mno".toList ∧
    Clean "/../abc".toList = "/abc".toList ∧
    Clean "abc//./../def".toList = "def".toList ∧
    Clean "abc/../../././../def".toList = "../../def".toList := by
  decide

/-! ### Main theorems on `TempFile` -/

/-- C5 (counterexample): with suffix `/` the file created in `/tmp` with prefix `cbd-` and
token `1f` is named `/tmp/cbd-1f`, which does not end with the suffix; and with directory
`.` and an empty prefix the file created is named `1f.c`, which does not start with the
directory joined with the prefix (that is `.`). -/
theorem TempFile_suffix_dropped :
    (TempFile hostFree [] "cbd-".toList "/".toList).f = some ⟨"/tmp/cbd-1f".toList⟩ ∧
    ¬ ("/".toList <:+ "/tmp/cbd-1f".toList) ∧
    (TempFile hostFree ".".toList [] ".c".toList).f = some ⟨"1f.c".toList⟩ ∧
    Join ".".toList [] = ".".toList ∧
    ¬ (Join ".".toList [] <+: "1f.c".toList) := by
  decide

/-- C5 (amended): whenever `TempFile` succeeds, the name of the file it created is
`filepath.Join` of the directory (the system temp directory when `dir` is empty) and
`prefix + token + suffix`, where the token is the lowercase hexadecimal form of the bytes of
one of the random numbers; and when the prefix is one plain path element (not empty, without
separator, neither `.` nor `..`) and the suffix has no separator, that name is the directory
joined with the prefix, followed by the token and the suffix, so it starts with the former
and ends with the suffix. -/
theorem TempFile_name (env : TempEnv) (dir pre suffix : GoString) (file : File)
    (h : (TempFile env dir pre suffix).f = some file) :
    ∃ token : GoString,
      (∃ k v, env.randInt k maxRand = .ok v ∧ token = hexEncodeToString (bigBytes v) ∧
        env.OpenFile k ⟨file.Name, O_RDWR ||| O_CREATE ||| O_EXCL, 0o600⟩ = none) ∧
      (∀ c ∈ token, c ∈ "0123456789abcdef".toList) ∧
      file.Name = Join (if dir = [] then env.TempDir else dir) (pre ++ token ++ suffix) ∧
      (pre ≠ [] → '/' ∉ pre → pre ≠ ['.'] → pre ≠ ['.', '.'] → '/' ∉ suffix →
        file.Name = Join (if dir = [] then env.TempDir else dir) pre ++ token ++ suffix ∧
        Join (if dir = [] then env.TempDir else dir) pre <+: file.Name ∧
        suffix <:+ file.Name) := by
  simp only [TempFile] at h
  obtain ⟨k, v, h1, h2, h3⟩ := TempFile.loop_created env _ pre suffix _ 0 none file h
  rw [Nat.zero_add] at h1 h3
  have hhex : ∀ c ∈ hexEncodeToString (bigBytes v), c ∈ "0123456789abcdef".toList :=
    hexEncodeToString_mem _
  refine ⟨hexEncodeToString (bigBytes v), ⟨k, v, h1, rfl, h3⟩, hhex, h2, ?_⟩
  intro p1 p2 p3 p4 hsuf
  have htok : '/' ∉ hexEncodeToString (bigBytes v) ++ suffix := by
    intro hmem
    rcases List.mem_append.mp hmem with hm | hm
    · exact absurd (hhex _ hm) (by decide)
    · exact hsuf hm
  have key : file.Name
      = Join (if dir = [] then env.TempDir else dir) pre
          ++ hexEncodeToString (bigBytes v) ++ suffix := by
    rw [h2, List.append_assoc pre, Join_plain _ pre _ p2 htok p1 p3 p4, List.append_assoc]
  refine ⟨key, ?_, ?_⟩
  · rw [key, List.append_assoc]
    exact List.prefix_append _ _
  · rw [key]
    exact List.suffix_append _ _

/-- Witness of C5 (amended): the call of the test, `TempFile("", "cbd-test-", ".test")`. -/
theorem TempFile_name_witness :
    ∃ token : GoString,
      (∃ k v, hostFree.randInt k maxRand = .ok v ∧ token = hexEncodeToString (bigBytes v) ∧
        hostFree.OpenFile k ⟨"/tmp/cbd-test-1f.test".toList,
          O_RDWR ||| O_CREATE ||| O_EXCL, 0o600⟩ = none) ∧
      (∀ c ∈ token, c ∈ "0123456789abcdef".toList) ∧
      "/tmp/cbd-test-1f.test".toList
        = Join (if ([] : GoString) = [] then hostFree.TempDir else [])
            ("cbd-test-".toList ++ token ++ ".test".toList) ∧
      ("cbd-test-".toList ≠ [] → '/' ∉ "cbd-test-".toList → "cbd-test-".toList ≠ ['.'] →
        "cbd-test-".toList ≠ ['.', '.'] → '/' ∉ ".test".toList →
        "/tmp/cbd-test-1f.test".toList
          = Join (if ([] : GoString) = [] then hostFree.TempDir else []) "cbd-test-".toList
              ++ token ++ ".test".toList ∧
        Join (if ([] : GoString) = [] then hostFree.TempDir else []) "cbd-test-".toList
          <+: "/tmp/cbd-test-1f.test".toList ∧
        ".test".toList <:+ "/tmp/cbd-test-1f.test".toList) :=
  TempFile_name hostFree [] "cbd-test-".toList ".test".toList
    ⟨"/tmp/cbd-test-1f.test".toList⟩ (by decide)

/-- C6: every `os.OpenFile` call of `TempFile` is an exclusive create (`O_CREATE|O_EXCL`);
there are at most 10000 of them; the `k`-th call uses the token of the `k`-th random number;
a call is followed by another one only if it failed because the name exists already; the
first call that succeeds or fails for another reason is the last one and decides the
results; and when all 10000 attempts collide the results are a nil file and a non-nil
error. A nil file is never returned together with a nil error. -/
theorem TempFile_attempts (env : TempEnv) (dir pre suffix : GoString) :
    (∀ c ∈ (TempFile env dir pre suffix).opens,
      c.flag = O_RDWR ||| O_CREATE ||| O_EXCL ∧ c.flag &&& O_EXCL = O_EXCL ∧
      c.flag &&& O_CREATE = O_CREATE) ∧
    (TempFile env dir pre suffix).opens.length ≤ 10000 ∧
    (∀ k c, (TempFile env dir pre suffix).opens[k]? = some c →
      ∃ v, env.randInt k maxRand = .ok v ∧
        c.name = Join (if dir = [] then env.TempDir else dir)
          (pre ++ hexEncodeToString (bigBytes v) ++ suffix)) ∧
    (∀ k c, (TempFile env dir pre suffix).opens[k]? = some c →
      k + 1 < (TempFile env dir pre suffix).opens.length →
        IsExist (env.OpenFile k c) = true) ∧
    (∀ k c, (TempFile env dir pre suffix).opens[k]? = some c →
      IsExist (env.OpenFile k c) = false →
        k + 1 = (TempFile env dir pre suffix).opens.length ∧
        (TempFile env dir pre suffix).err = env.OpenFile k c ∧
        (TempFile env dir pre suffix).f
          = if env.OpenFile k c = none then some ⟨c.name⟩ else none) ∧
    ((∀ k, k < 10000 → ∃ v, env.randInt k maxRand = .ok v ∧
        IsExist (env.OpenFile k
          ⟨Join (if dir = [] then env.TempDir else dir)
              (pre ++ hexEncodeToString (bigBytes v) ++ suffix),
            O_RDWR ||| O_CREATE ||| O_EXCL, 0o600⟩) = true) →
      (TempFile env dir pre suffix).f = none ∧
      (TempFile env dir pre suffix).err ≠ none ∧
      IsExist (TempFile env dir pre suffix).err = true ∧
      (TempFile env dir pre suffix).opens.length = 10000) ∧
    ¬ ((TempFile env dir pre suffix).f = none ∧ (TempFile env dir pre suffix).err = none) := by
  simp only [TempFile]
  refine ⟨?_, ?_, ?_, ?_, ?_, ?_, ?_⟩
  · intro c hc
    obtain ⟨k, hk⟩ := List.getElem?_of_mem hc
    obtain ⟨v, _, hv⟩ := TempFile.loop_calls env _ pre suffix _ 0 none none k c hk
    have e1 : (O_RDWR ||| O_CREATE ||| O_EXCL) &&& O_EXCL = O_EXCL := by decide
    have e2 : (O_RDWR ||| O_CREATE ||| O_EXCL) &&& O_CREATE = O_CREATE := by decide
    rw [hv]
    exact ⟨rfl, e1, e2⟩
  · exact TempFile.loop_length env _ pre suffix maxAttempts 0 none none
  · intro k c hk
    obtain ⟨v, hr, hv⟩ := TempFile.loop_calls env _ pre suffix _ 0 none none k c hk
    rw [Nat.zero_add] at hr
    exact ⟨v, hr, by rw [hv]⟩
  · intro k c hk hlt
    have := TempFile.loop_retry env _ pre suffix _ 0 none none k c hk hlt
    rwa [Nat.zero_add] at this
  · intro k c hk hne
    have := TempFile.loop_stop env _ pre suffix _ 0 none none k c hk
      (by rwa [Nat.zero_add])
    rwa [Nat.zero_add] at this
  · intro hall
    have hall2 : ∀ k, k < maxAttempts → ∃ v, env.randInt (0 + k) maxRand = .ok v ∧
        IsExist (env.OpenFile (0 + k)
          ⟨Join (if dir = [] then env.TempDir else dir)
              (pre ++ hexEncodeToString (bigBytes v) ++ suffix),
            O_RDWR ||| O_CREATE ||| O_EXCL, 0o600⟩) = true := by
      intro k hk
      rw [Nat.zero_add]
      exact hall k hk
    obtain ⟨h1, h2, h3⟩ := TempFile.loop_exhaust env _ pre suffix maxAttempts 0 none none
      (by decide) hall2
    refine ⟨h1, ?_, h2, h3⟩
    intro hnone
    rw [hnone] at h2
    exact absurd h2 (by decide)
  · exact TempFile.loop_not_nil_nil env _ pre suffix maxAttempts 0 none none
      (Or.inr (by decide))

/-- Witness of C6: on a host where every name exists already all 10000 attempts collide; on
a host where only the first name exists the first call is followed by a second one, which
succeeds and is the last. -/
theorem TempFile_attempts_witness :
    ((TempFile hostFull [] "cbd-".toList ".c".toList).f = none ∧
      (TempFile hostFull [] "cbd-".toList ".c".toList).err ≠ none ∧
      IsExist (TempFile hostFull [] "cbd-".toList ".c".toList).err = true ∧
      (TempFile hostFull [] "cbd-".toList ".c".toList).opens.length = 10000) ∧
    IsExist (hostOneCollision.OpenFile 0
      ⟨"/tmp/cbd-a0.c".toList, O_RDWR ||| O_CREATE ||| O_EXCL, 0o600⟩) = true ∧
    (1 + 1 = (TempFile hostOneCollision [] "cbd-".toList ".c".toList).opens.length ∧
      (TempFile hostOneCollision [] "cbd-".toList ".c".toList).err
        = hostOneCollision.OpenFile 1
            ⟨"/tmp/cbd-a1.c".toList, O_RDWR ||| O_CREATE ||| O_EXCL, 0o600⟩ ∧
      (TempFile hostOneCollision [] "cbd-".toList ".c".toList).f
        = if hostOneCollision.OpenFile 1
              ⟨"/tmp/cbd-a1.c".toList, O_RDWR ||| O_CREATE ||| O_EXCL, 0o600⟩ = none
          then some ⟨"/tmp/cbd-a1.c".toList⟩ else none) :=
  ⟨(TempFile_attempts hostFull [] "cbd-".toList ".c".toList).2.2.2.2.2.1
      (fun k _ => ⟨k, rfl, rfl⟩),
    (TempFile_attempts hostOneCollision [] "cbd-".toList ".c".toList).2.2.2.1 0
      ⟨"/tmp/cbd-a0.c".toList, O_RDWR ||| O_CREATE ||| O_EXCL, 0o600⟩ (by decide) (by decide),
    (TempFile_attempts hostOneCollision [] "cbd-".toList ".c".toList).2.2.2.2.1 1
      ⟨"/tmp/cbd-a1.c".toList, O_RDWR ||| O_CREATE ||| O_EXCL, 0o600⟩ (by decide) (by decide)⟩

end Cbd
